import Mathlib

/-!
Verification development for the transcribe-KIT repository.

The first half of this file is a shallow embedding of the two core modules:

* `convert.py` — `clean_text`, the CSV-row loop of `convert_csv_to_txt`, and
  the VTT line loop of `convert_vtt_to_txt` (including the backtracking
  behaviour of the regular expression `<v\s+([^>]+)>\s*(.*)` used on cue
  text).  Python strings are modelled as `List Char`; file contents are the
  character list that would be written; a raised exception (`KeyError` on a
  missing CSV column) is modelled as `none`.
* `monitor_job.py` — the polling loop of `monitor_and_download` (wall-clock
  time advances by the sleep amounts, 30 s after a normal poll and 60 s after
  a transport error) and the artifact download phase that follows success.

The second half states and proves the specification claims.
-/

namespace TranscribeKit

/-- Whitespace test matching the default behaviour of Python `str.strip` /
`str.split` on ASCII input: space, tab, newline, carriage return, vertical
tab, form feed. -/
def isSpace (c : Char) : Bool :=
  c = ' ' || c = '\t' || c = '\n' || c = '\r' || c = Char.ofNat 11 || c = Char.ofNat 12

/-- Python `s.strip()`: drop leading and trailing whitespace. -/
def pyStrip (s : List Char) : List Char :=
  ((s.dropWhile isSpace).reverse.dropWhile isSpace).reverse

/-- Python `' '.join(ws)`. -/
def joinSp : List (List Char) → List Char
  | [] => []
  | [w] => w
  | w :: r => w ++ ' ' :: joinSp r

/-- Helper for `pySplit`: accumulates the current word in reverse. -/
def pySplitAux : List Char → List Char → List (List Char)
  | [], cur => if cur.isEmpty then [] else [cur.reverse]
  | c :: t, cur =>
    if isSpace c then
      if cur.isEmpty then pySplitAux t [] else cur.reverse :: pySplitAux t []
    else pySplitAux t (c :: cur)

/-- Python `s.split()` (no argument): the maximal runs of non-whitespace
characters, in order. -/
def pySplit (s : List Char) : List (List Char) :=
  pySplitAux s []

/-- `clean_text` from `convert.py`: strip, remove one layer of surrounding
double quotes when the stripped text both starts and ends with `"`, then
`' '.join(text.split())`. -/
def clean_text (s : List Char) : List Char :=
  let t := pyStrip s
  let t2 := if t.head? = some '"' ∧ t.getLast? = some '"' then (t.drop 1).dropLast else t
  joinSp (pySplit t2)

/-- A (speaker, text) fragment as extracted by either parser. -/
structure Fragment where
  speaker : List Char
  text : List Char

deriving instance DecidableEq, Repr for Fragment

/-- A merged dialogue block (one `SPEAKER: text` output line). -/
structure Block where
  speaker : List Char
  text : List Char

deriving instance DecidableEq, Repr for Block

/-- The state of the merge loop shared by both converters:
`current_speaker`, `current_text` and the emitted `output_lines`. -/
structure MState where
  cs : Option (List Char)
  ct : List (List Char)
  out : List Block

deriving instance DecidableEq, Repr for MState

/-- Emitting the pending block: `if current_speaker is not None and
current_text:` append `f"{current_speaker}: {' '.join(current_text)}"`. -/
def flushBlock (cs : Option (List Char)) (ct : List (List Char)) : List Block :=
  match cs with
  | none => []
  | some s => if ct = [] then [] else [⟨s, joinSp ct⟩]

/-- One iteration of the merge loop body on a fragment that survived the
empty-speaker/empty-text skip. -/
def pushFrag (m : MState) (f : Fragment) : MState :=
  if some f.speaker = m.cs then { m with ct := m.ct ++ [f.text] }
  else ⟨some f.speaker, [f.text], m.out ++ flushBlock m.cs m.ct⟩

/-- Initial merge state (`current_speaker = None`, empty accumulator). -/
def initM : MState := ⟨none, [], []⟩

/-- End of input: emit the last pending block. -/
def finalizeM (m : MState) : List Block :=
  m.out ++ flushBlock m.cs m.ct

/-- The merge loop run on an already-filtered fragment sequence. -/
def mergeFragments (fs : List Fragment) : List Block :=
  finalizeM (fs.foldl pushFrag initM)

/-- Association-list lookup modelling `row[key]` on a `csv.DictReader` row;
`none` models a raised `KeyError`. -/
def lookupCol (key : List Char) : List (List Char × List Char) → Option (List Char)
  | [] => none
  | (k, v) :: r => if k = key then some v else lookupCol key r

/-- The required `speaker` column name. -/
def speakerKey : List Char := "speaker".toList

/-- The required `text` column name. -/
def textKey : List Char := "text".toList

/-- One iteration of the row loop of `convert_csv_to_txt`: look the two
columns up (a missing column raises, modelled as the absorbing `none`),
clean, skip empties, and otherwise run the merge body. -/
def csvStep (st : Option MState) (row : List (List Char × List Char)) : Option MState :=
  match st with
  | none => none
  | some m =>
    match lookupCol speakerKey row, lookupCol textKey row with
    | some sv, some tv =>
      let speaker := pyStrip sv
      let text := clean_text tv
      if text = [] ∨ speaker = [] then some m
      else some (pushFrag m ⟨speaker, text⟩)
    | _, _ => none

/-- `convert_csv_to_txt` up to rendering: the dialogue blocks computed from
the data rows, or `none` when a row raised `KeyError`. -/
def csvBlocks (rows : List (List (List Char × List Char))) : Option (List Block) :=
  (rows.foldl csvStep (some initM)).map finalizeM

/-- One output line `f"{speaker}: {text}\n"`. -/
def renderBlock (b : Block) : List Char :=
  b.speaker ++ ':' :: ' ' :: (b.text ++ ['\n'])

/-- Python `'\n'.join(lines)`. -/
def joinNl : List (List Char) → List Char
  | [] => []
  | [l] => l
  | l :: r => l ++ '\n' :: joinNl r

/-- The file content written by `convert_csv_to_txt`, or `none` when the
conversion raised before the output file was opened. -/
def writeCsv (rows : List (List (List Char × List Char))) : Option (List Char) :=
  (csvBlocks rows).map (fun bs => joinNl (bs.map renderBlock))

/-- Does `s` start with the pattern `p`? -/
def startsWithL : List Char → List Char → Bool
  | _, [] => true
  | [], _ :: _ => false
  | c :: s, p :: ps => c = p && startsWithL s ps

/-- Does `s` contain `pat` as a contiguous subsequence (Python `pat in s`)? -/
def containsSeq (pat : List Char) : List Char → Bool
  | [] => pat.isEmpty
  | c :: t => startsWithL (c :: t) pat || containsSeq pat t

/-- The cue time-range marker `-->`. -/
def arrowPat : List Char := ['-', '-', '>']

/-- `'-->' in line`. -/
def hasArrow (l : List Char) : Bool := containsSeq arrowPat l

/-- Backtracking engine for `re.match(r'<v\s+([^>]+)>\s*(.*)', cue)`.
`t` is the input after the literal `<v`; the argument counts how many
whitespace characters `\s+` consumes, tried greedily from the maximal run
downwards.  Returns `(group 1, the text after the closing '>')`. -/
def tryK (t : List Char) : Nat → Option (List Char × List Char)
  | 0 => none
  | k + 1 =>
    let rest := t.drop (k + 1)
    let g1 := rest.takeWhile (fun c => c != '>')
    match rest.drop g1.length with
    | '>' :: after => if g1.isEmpty then tryK t k else some (g1, after)
    | _ => tryK t k

/-- `re.match(r'<v\s+([^>]+)>\s*(.*)', cue)`: `some (g1, after)` when the
cue text matches the speaker-tag pattern, where `after` is everything after
the closing `>` (so that group 2 is `after` with leading whitespace
dropped). -/
def vttMatch : List Char → Option (List Char × List Char)
  | '<' :: 'v' :: t => tryK t (t.takeWhile isSpace).length
  | _ => none

/-- The sentinel speaker used when a cue has no usable speaker tag. -/
def unknownSpeaker : List Char := "UNKNOWN".toList

/-- Processing of one completed cue text (already stripped):
match the speaker tag, skip empty text, substitute `"UNKNOWN"` for a missing
or empty speaker. -/
def cueFragment (cue : List Char) : Option Fragment :=
  match vttMatch cue with
  | some (g1, g2) =>
    let sp := pyStrip g1
    let tx := pyStrip (g2.dropWhile isSpace)
    if tx = [] then none
    else some ⟨if sp = [] then unknownSpeaker else sp, tx⟩
  | none => if cue = [] then none else some ⟨unknownSpeaker, cue⟩

/-- State of the VTT line loop: the merge state plus the cue text being
collected (`none` when between cues; the accumulated text keeps each
stripped line followed by one space, exactly as the source builds it). -/
structure VState where
  m : MState
  cue : Option (List Char)

deriving instance DecidableEq, Repr for VState

/-- Completing a cue: strip the accumulated text, parse it, and feed the
resulting fragment (if any) to the merge body. -/
def closeCue (m : MState) (acc : List Char) : MState :=
  match cueFragment (pyStrip acc) with
  | none => m
  | some f => pushFrag m f

/-- One line of the VTT loop.  Between cues, a line containing `-->` begins
cue collection; while collecting, a blank line completes the cue and any
other line is stripped and appended (plus a space). -/
def stepLine (v : VState) (l : List Char) : VState :=
  match v.cue with
  | some acc =>
    if pyStrip l = [] then ⟨closeCue v.m acc, none⟩
    else ⟨v.m, some (acc ++ pyStrip l ++ [' '])⟩
  | none => if hasArrow l then ⟨v.m, some []⟩ else v

/-- Initial VTT loop state. -/
def initV : VState := ⟨initM, none⟩

/-- End of the VTT input: a cue still being collected is completed, then the
last merge block is emitted. -/
def vttFinal (v : VState) : List Block :=
  finalizeM (match v.cue with | some acc => closeCue v.m acc | none => v.m)

/-- `convert_vtt_to_txt` up to rendering: the dialogue blocks computed from
the input lines. -/
def convertVtt (ls : List (List Char)) : List Block :=
  vttFinal (ls.foldl stepLine initV)

/-- The file content written by `convert_vtt_to_txt`.  The VTT converter has
no failure path, so a file is always written (`some`); an input with no cues
yields `some []`, an empty file. -/
def writeVtt (ls : List (List Char)) : Option (List Char) :=
  some (joinNl ((convertVtt ls).map renderBlock))

/-- Helper for `readLines`. -/
def readLinesAux : List Char → List Char → List (List Char)
  | [], acc => if acc.isEmpty then [] else [acc.reverse]
  | c :: rest, acc =>
    if c = '\n' then (acc.reverse ++ ['\n']) :: readLinesAux rest []
    else readLinesAux rest (c :: acc)

/-- Python `f.readlines()`: split after each newline, keeping the newline. -/
def readLines (s : List Char) : List (List Char) :=
  readLinesAux s []

/-- A parsed status payload: the `task_status` and `status` fields as read
by `status.get(...)` (`none` models an absent field). -/
structure Payload where
  task_status : Option String
  status : Option String

deriving instance DecidableEq, Repr for Payload

/-- What one successfully parsed status payload makes the loop do. -/
inductive StepAction where
  | succeed
  | failNow (p : Payload)
  | continuePolling

deriving instance DecidableEq, Repr for StepAction

/-- The status classification of `monitor_and_download`:
`if status.get('task_status') == 'SUCCESS' or status.get('status') ==
'completed': break` / `elif ... == 'FAILURE' or ... == 'failed': return`
(reporting the payload) / otherwise keep polling. -/
def classify (p : Payload) : StepAction :=
  if p.task_status = some "SUCCESS" ∨ p.status = some "completed" then .succeed
  else if p.task_status = some "FAILURE" ∨ p.status = some "failed" then .failNow p
  else .continuePolling

/-- One response of the remote status endpoint: a parsed payload, or a
transport error (`requests.exceptions.RequestException`). -/
inductive Resp where
  | ok (p : Payload)
  | transportErr

/-- Terminal outcome of the polling loop. -/
inductive Outcome where
  | succeeded
  | failed (p : Payload)
  | timedOut

deriving instance DecidableEq, Repr for Outcome

/-- The polling loop of `monitor_and_download`.  `src k` is the response to
the `k`-th status request; `elapsed` is the wall-clock seconds since start,
advanced by the sleep amounts (30 s after a normal poll, 60 s after a
transport error).  The loop first re-checks the timeout ceiling
(`elapsed_time > timeout_seconds`), then issues one request.  Returns the
outcome together with the elapsed time at exit and the number of status
requests issued; `none` when the fuel ran out. -/
def runPoll (timeout : Nat) (src : Nat → Resp) : Nat → Nat → Nat → Option (Outcome × Nat × Nat)
  | 0, _, _ => none
  | fuel + 1, k, elapsed =>
    if elapsed > timeout then some (.timedOut, elapsed, k)
    else
      match src k with
      | .ok p =>
        match classify p with
        | .succeed => some (.succeeded, elapsed, k + 1)
        | .failNow q => some (.failed q, elapsed, k + 1)
        | .continuePolling => runPoll timeout src fuel (k + 1) (elapsed + 30)
      | .transportErr => runPoll timeout src fuel (k + 1) (elapsed + 60)

/-- The path `transcription_{job_id[:8]}.vtt` (relative to the output
directory). -/
def vttPathOf (jobId : List Char) : List Char :=
  "transcription_".toList ++ jobId.take 8 ++ ".vtt".toList

/-- The path `transcription_{job_id[:8]}.csv` (relative to the output
directory). -/
def csvPathOf (jobId : List Char) : List Char :=
  "transcription_".toList ++ jobId.take 8 ++ ".csv".toList

/-- Result of the download phase: the files written and the
`downloaded_files` report. -/
structure FetchResult where
  files : List (List Char × List Char)
  report : List String

deriving instance DecidableEq, Repr for FetchResult

/-- The download phase that follows success: try the VTT artifact, then the
CSV artifact, each in its own `try`/`except`; `none` models a failed
request.  A successful artifact is written to its deterministic path and its
kind is appended to `downloaded_files`. -/
def fetchResults (jobId : List Char) (vtt csv : Option (List Char)) : FetchResult :=
  let afterVtt : FetchResult :=
    match vtt with
    | some content => ⟨[(vttPathOf jobId, content)], ["VTT"]⟩
    | none => ⟨[], []⟩
  match csv with
  | some content => ⟨afterVtt.files ++ [(csvPathOf jobId, content)], afterVtt.report ++ ["CSV"]⟩
  | none => afterVtt

/-! Specification-side definitions, following the words of the spec. -/

/-- The number of maximal runs of consecutive equal elements. -/
def countRuns : List (List Char) → Nat
  | [] => 0
  | [_] => 1
  | x :: y :: t => (if y = x then 0 else 1) + countRuns (y :: t)

/-- The run representatives of a nonempty sequence with first element `s`:
one entry per maximal run of consecutive equal speakers. -/
def runSpeakers : List Char → List (List Char) → List (List Char)
  | s, [] => [s]
  | s, x :: t => if x = s then runSpeakers s t else s :: runSpeakers x t

/-- Spec's quote-stripping step: remove exactly one layer of surrounding
quote characters when both a leading and a trailing quote are present. -/
def spec_stripQuotes (s : List Char) : List Char :=
  if s.head? = some '"' ∧ s.getLast? = some '"' then (s.drop 1).dropLast else s

/-- Whitespace normalization as a character-level machine: mode 0 before the
first word, mode 1 inside a word, mode 2 in whitespace after a word.  Every
whitespace run between words becomes one space; leading and trailing
whitespace disappears. -/
def cGo : Nat → List Char → List Char
  | _, [] => []
  | m, c :: t =>
    if isSpace c then cGo (if m = 0 then 0 else 2) t
    else (if m = 2 then [' '] else []) ++ c :: cGo 1 t

/-- `joinSp` of a possibly-empty tail, preceded by a separating space when
nonempty. -/
def joinSp2 (r : List (List Char)) : List Char :=
  if r.isEmpty then [] else ' ' :: joinSp r

/-- The spec's collapse step read literally: only internal whitespace runs
are collapsed; a leading or trailing whitespace run is kept as is. -/
def spec_collapseInternal (s : List Char) : List Char :=
  s.takeWhile isSpace ++ cGo 0 s ++ (s.reverse.takeWhile isSpace).reverse

/-- The text-cleaning pipeline exactly as the claim words it: trim, strip
one quote layer, collapse internal whitespace runs. -/
def spec_cleanLiteral (s : List Char) : List Char :=
  spec_collapseInternal (spec_stripQuotes (pyStrip s))

/-- The amended text-cleaning pipeline: trim, strip one quote layer, then
normalize whitespace (collapse runs to single spaces and drop whitespace
exposed at either end by quote stripping). -/
def spec_cleanAmended (s : List Char) : List Char :=
  cGo 0 (spec_stripQuotes (pyStrip s))

/-- A timestamp line used when expressing content as caption cues. -/
def tsLine : List Char := "00:00:00.000 --> 00:00:01.000".toList

/-- One (speaker, text) pair expressed as a caption cue: a time-range line,
one `<v speaker> text` line, and a blank separator line. -/
def encodePairVtt (p : List Char × List Char) : List (List Char) :=
  [tsLine, "<v ".toList ++ p.1 ++ "> ".toList ++ p.2, []]

/-- A (speaker, text) list expressed as a caption document. -/
def encodeVtt (pairs : List (List Char × List Char)) : List (List Char) :=
  "WEBVTT".toList :: [] :: pairs.flatMap encodePairVtt

/-- One (speaker, text) pair expressed as a tabular row with `speaker` and
`text` columns. -/
def encodeRow (p : List Char × List Char) : List (List Char × List Char) :=
  [(speakerKey, p.1), (textKey, p.2)]

/-- The fragments both parsers should extract from a clean pair list: every
pair whose text is nonempty. -/
def pairsFrags (pairs : List (List Char × List Char)) : List Fragment :=
  pairs.filterMap fun p => if p.2 = [] then none else some ⟨p.1, p.2⟩

/-- A pair already in canonical form: nonempty trimmed speaker that contains
no `>`, and text that the tabular cleaning leaves unchanged (so it is also
trimmed). -/
def cleanPair (p : List Char × List Char) : Prop :=
  p.1 ≠ [] ∧ pyStrip p.1 = p.1 ∧ '>' ∉ p.1 ∧ clean_text p.2 = p.2 ∧ pyStrip p.2 = p.2

end TranscribeKit

namespace TranscribeKit

/-! Lemmas about the run structure of the merge loop. -/

theorem runSpeakers_length (l : List (List Char)) :
    ∀ s, (runSpeakers s l).length = countRuns (s :: l) := by
  induction l with
  | nil => intro s; simp [runSpeakers, countRuns]
  | cons x t ih =>
    intro s
    by_cases h : x = s
    · subst h
      simp [runSpeakers, countRuns, ih]
    · simp only [runSpeakers, countRuns, if_neg h, List.length_cons, ih x]
      omega

theorem runSpeakers_head (l : List (List Char)) :
    ∀ s, (runSpeakers s l).head? = some s := by
  induction l with
  | nil => intro s; simp [runSpeakers]
  | cons x t ih =>
    intro s
    by_cases h : x = s
    · simp [runSpeakers, h, ih]
    · simp [runSpeakers, h]

theorem runSpeakers_chain (l : List (List Char)) :
    ∀ s, List.Chain' (· ≠ ·) (runSpeakers s l) := by
  induction l with
  | nil => intro s; simp [runSpeakers]
  | cons x t ih =>
    intro s
    by_cases h : x = s
    · simpa [runSpeakers, h] using ih s
    · rw [runSpeakers, if_neg h, List.chain'_cons']
      refine ⟨?_, ih x⟩
      intro b hb
      rw [runSpeakers_head t x] at hb
      simp only [Option.mem_def, Option.some.injEq] at hb
      subst hb
      exact fun hsx => h hsx.symm

theorem merge_speakers_go (fs : List Fragment) :
    ∀ (s : List Char) (ct : List (List Char)) (out : List Block), ct ≠ [] →
      (finalizeM (fs.foldl pushFrag ⟨some s, ct, out⟩)).map Block.speaker
        = out.map Block.speaker ++ runSpeakers s (fs.map Fragment.speaker) := by
  induction fs with
  | nil =>
    intro s ct out hct
    simp [finalizeM, flushBlock, runSpeakers, hct]
  | cons f fs ih =>
    intro s ct out hct
    by_cases h : f.speaker = s
    · rw [List.foldl_cons]
      have hstep : pushFrag ⟨some s, ct, out⟩ f = ⟨some s, ct ++ [f.text], out⟩ := by
        simp [pushFrag, h]
      rw [hstep, ih s (ct ++ [f.text]) out (by simp)]
      simp [runSpeakers, h]
    · rw [List.foldl_cons]
      have hstep : pushFrag ⟨some s, ct, out⟩ f
          = ⟨some f.speaker, [f.text], out ++ [⟨s, joinSp ct⟩]⟩ := by
        simp [pushFrag, h, flushBlock, hct]
      rw [hstep, ih f.speaker [f.text] (out ++ [(⟨s, joinSp ct⟩ : Block)]) (by simp)]
      simp [runSpeakers, h]

theorem mergeFragments_nil : mergeFragments [] = [] := rfl

theorem mergeFragments_speakers_cons (f : Fragment) (fs : List Fragment) :
    (mergeFragments (f :: fs)).map Block.speaker
      = runSpeakers f.speaker (fs.map Fragment.speaker) := by
  have hstep : pushFrag initM f = ⟨some f.speaker, [f.text], []⟩ := by
    simp [pushFrag, initM, flushBlock]
  rw [mergeFragments, List.foldl_cons, hstep,
    merge_speakers_go fs f.speaker [f.text] [] (by simp)]
  simp

theorem mergeFragments_chain (fs : List Fragment) :
    List.Chain' (· ≠ ·) ((mergeFragments fs).map Block.speaker) := by
  cases fs with
  | nil => simp [mergeFragments_nil]
  | cons f fs =>
    rw [mergeFragments_speakers_cons]
    exact runSpeakers_chain _ _

/-- C1: for every input fragment sequence, after fragments with empty
speaker or empty cleaned text are filtered out, the number of dialogue
blocks emitted by the merge loop equals the number of maximal runs of
consecutive fragments with equal speaker strings (exact, case-sensitive
equality), and no two adjacent emitted blocks carry the same speaker
string. -/
theorem c1_run_count_invariant (fs : List Fragment) :
    ((mergeFragments (fs.filter fun f => !f.speaker.isEmpty && !f.text.isEmpty)).length
      = countRuns ((fs.filter fun f => !f.speaker.isEmpty && !f.text.isEmpty).map
          Fragment.speaker))
    ∧ List.Chain' (· ≠ ·)
        ((mergeFragments (fs.filter fun f => !f.speaker.isEmpty && !f.text.isEmpty)).map
          Block.speaker) := by
  refine ⟨?_, mergeFragments_chain _⟩
  cases hg : fs.filter fun f => !f.speaker.isEmpty && !f.text.isEmpty with
  | nil => simp [mergeFragments_nil, countRuns]
  | cons f r =>
    have hlen : (mergeFragments (f :: r)).length
        = ((mergeFragments (f :: r)).map Block.speaker).length := by
      simp
    rw [hlen, mergeFragments_speakers_cons, runSpeakers_length, List.map_cons]

/-- C8: merging is idempotent — feeding the merge output back in as a
fragment sequence (one fragment per block) and merging again yields the
identical block sequence. -/
theorem c8_merge_idempotent (fs : List Fragment) :
    mergeFragments ((mergeFragments fs).map fun b => (⟨b.speaker, b.text⟩ : Fragment))
      = mergeFragments fs := by
  have remerge : ∀ (bs : List Block) (s t : List Char) (out : List Block),
      List.Chain' (· ≠ ·) (s :: bs.map Block.speaker) →
      finalizeM ((bs.map fun b => (⟨b.speaker, b.text⟩ : Fragment)).foldl pushFrag
          ⟨some s, [t], out⟩)
        = out ++ ⟨s, t⟩ :: bs := by
    intro bs
    induction bs with
    | nil =>
      intro s t out _
      simp [finalizeM, flushBlock, joinSp]
    | cons b bs ih =>
      intro s t out hch
      rw [List.map_cons, List.chain'_cons] at hch
      have hne : b.speaker ≠ s := fun h => hch.1 h.symm
      rw [List.map_cons, List.foldl_cons]
      have hstep : pushFrag ⟨some s, [t], out⟩ ⟨b.speaker, b.text⟩
          = ⟨some b.speaker, [b.text], out ++ [⟨s, t⟩]⟩ := by
        simp [pushFrag, hne, flushBlock, joinSp]
      rw [hstep, ih b.speaker b.text (out ++ [(⟨s, t⟩ : Block)]) hch.2]
      simp
  have hch := mergeFragments_chain fs
  cases hbs : mergeFragments fs with
  | nil => simp [mergeFragments_nil]
  | cons b rest =>
    rw [hbs, List.map_cons] at hch
    simp only [List.map_cons, mergeFragments, List.foldl_cons]
    have hstep : pushFrag initM ⟨b.speaker, b.text⟩ = ⟨some b.speaker, [b.text], []⟩ := by
      simp [pushFrag, initM, flushBlock]
    rw [hstep, remerge rest b.speaker b.text [] hch]
    simp

end TranscribeKit

namespace TranscribeKit

/-- C5: the VTT conversion of the spec's example caption document (speaker A
saying "Hello there", A saying "how are you", B saying "Fine thanks")
produces exactly two dialogue blocks, A with the two texts joined and B with
its text, in that order. -/
theorem c5_vtt_example :
    convertVtt (readLines ("WEBVTT\n\n00:00:00.000 --> 00:00:02.000\n<v A> Hello there\n\n00:00:02.000 --> 00:00:03.000\n<v A> how are you\n\n00:00:03.000 --> 00:00:04.000\n<v B> Fine thanks\n").toList)
      = [⟨"A".toList, "Hello there how are you".toList⟩,
         ⟨"B".toList, "Fine thanks".toList⟩] := by
  decide

/-- C10: a cue whose raw text matches the speaker-tag pattern but whose
captured name trims to the empty string is emitted with the sentinel
speaker "UNKNOWN"; and no fragment with an empty speaker string is ever
produced by the caption cue parser. -/
theorem c10_unknown_sentinel :
    (∀ cue g1 g2, vttMatch cue = some (g1, g2) → pyStrip g1 = [] →
      ∀ f, cueFragment cue = some f → f.speaker = unknownSpeaker)
    ∧ (∀ cue f, cueFragment cue = some f → f.speaker ≠ []) := by
  constructor
  · intro cue g1 g2 hm hg f hf
    simp only [cueFragment, hm, hg, if_pos rfl] at hf
    split at hf
    · exact absurd hf (by simp)
    · injection hf with h
      rw [← h]
      simp
  · intro cue f hf
    cases hm : vttMatch cue with
    | none =>
      simp only [cueFragment, hm] at hf
      split at hf
      · exact absurd hf (by simp)
      · injection hf with h
        rw [← h]
        show unknownSpeaker ≠ []
        decide
    | some pr =>
      obtain ⟨g1, g2⟩ := pr
      simp only [cueFragment, hm] at hf
      split at hf
      · exact absurd hf (by simp)
      · injection hf with h
        rw [← h]
        by_cases hsp : pyStrip g1 = []
        · simp [hsp, unknownSpeaker]
        · simp only [if_neg hsp]
          exact hsp

/-- C10 witness: the cue text `<v  > hello` (two spaces) matches the
speaker-tag pattern with a captured name that trims to empty, and the
emitted fragment carries the sentinel speaker `UNKNOWN`. -/
theorem c10_unknown_sentinel_witness :
    ∃ f, cueFragment "<v  > hello".toList = some f ∧ f.speaker = unknownSpeaker :=
  ⟨⟨unknownSpeaker, "hello".toList⟩, by decide,
    c10_unknown_sentinel.1 "<v  > hello".toList [' '] " hello".toList
      (by decide) (by decide) ⟨unknownSpeaker, "hello".toList⟩ (by decide)⟩

end TranscribeKit

namespace TranscribeKit

theorem poll_times_out (timeout : Nat) (src : Nat → Resp)
    (h : ∀ k, ∃ p, src k = .ok p ∧ classify p = .continuePolling) :
    ∀ fuel e k, e ≤ timeout → timeout < 30 * fuel + e →
      ∃ e' n, (∀ g, fuel + 1 ≤ g → runPoll timeout src g k e = some (.timedOut, e', n))
        ∧ timeout < e' ∧ e' ≤ timeout + 30 := by
  intro fuel
  induction fuel with
  | zero => intro e k he hlt; omega
  | succ fuel ih =>
    intro e k he hlt
    obtain ⟨p, hsrc, hcl⟩ := h k
    by_cases h30 : e + 30 ≤ timeout
    · obtain ⟨e', n, hstab, hgt, hle⟩ := ih (e + 30) (k + 1) h30 (by omega)
      refine ⟨e', n, ?_, hgt, hle⟩
      intro g hg
      obtain ⟨g', rfl⟩ : ∃ g', g = g' + 1 := ⟨g - 1, by omega⟩
      simp only [runPoll, if_neg (show ¬ e > timeout by omega), hsrc, hcl]
      exact hstab g' (by omega)
    · refine ⟨e + 30, k + 1, ?_, by omega, by omega⟩
      intro g hg
      obtain ⟨g', rfl⟩ : ∃ g', g = g' + 1 := ⟨g - 1, by omega⟩
      obtain ⟨g2, rfl⟩ : ∃ g2, g' = g2 + 1 := ⟨g' - 1, by omega⟩
      simp only [runPoll, if_neg (show ¬ e > timeout by omega), hsrc, hcl]
      simp only [runPoll, if_pos (show e + 30 > timeout by omega)]

/-- C2: against a status source that keeps answering with a successfully
parsed non-terminal payload, the poll loop reaches `timedOut`, at an elapsed
time strictly above the configured ceiling but at most one sleep interval
beyond it (the ceiling is re-checked at the top of every iteration, before
any further wait), and giving the loop any more fuel changes nothing: no
further status request is ever issued after the timeout. -/
theorem c2_poll_timeout (timeout : Nat) (src : Nat → Resp)
    (h : ∀ k, ∃ p, src k = .ok p ∧ classify p = .continuePolling) :
    ∃ e n, runPoll timeout src (timeout / 30 + 2) 0 0 = some (.timedOut, e, n)
      ∧ timeout < e ∧ e ≤ timeout + 30
      ∧ ∀ g, timeout / 30 + 2 ≤ g → runPoll timeout src g 0 0 = some (.timedOut, e, n) := by
  obtain ⟨e, n, hstab, hgt, hle⟩ := poll_times_out timeout src h (timeout / 30 + 1) 0 0
    (by omega) (by omega)
  exact ⟨e, n, hstab _ (by omega), hgt, hle, fun g hg => hstab g (by omega)⟩

/-- C2 witness: with a 60-second ceiling and a source that always answers
`task_status = "RUNNING"`, the poller times out above the ceiling and within
one interval of it. -/
theorem c2_poll_timeout_witness :
    ∃ e n, runPoll 60 (fun _ => Resp.ok ⟨some "RUNNING", none⟩) (60 / 30 + 2) 0 0
        = some (.timedOut, e, n) ∧ 60 < e ∧ e ≤ 60 + 30 := by
  obtain ⟨e, n, hrun, hgt, hle, _⟩ :=
    c2_poll_timeout 60 (fun _ => Resp.ok ⟨some "RUNNING", none⟩)
      (fun _ => ⟨⟨some "RUNNING", none⟩, rfl, by decide⟩)
  exact ⟨e, n, hrun, hgt, hle⟩

/-- C3: a successfully parsed status payload drives the loop to `succeeded`
exactly when `task_status == 'SUCCESS'` or `status == 'completed'`; to
`failed` — carrying the full payload — exactly when `task_status ==
'FAILURE'` or `status == 'failed'` while no success field matches; and
otherwise the loop keeps polling.  The last conjunct ties the
classification to the poll loop itself. -/
theorem c3_status_classification (p : Payload) :
    (classify p = .succeed ↔ (p.task_status = some "SUCCESS" ∨ p.status = some "completed"))
    ∧ (∀ q, classify p = .failNow q ↔
        (q = p ∧ (p.task_status = some "FAILURE" ∨ p.status = some "failed")
          ∧ ¬(p.task_status = some "SUCCESS" ∨ p.status = some "completed")))
    ∧ (classify p = .continuePolling ↔
        (¬(p.task_status = some "SUCCESS" ∨ p.status = some "completed")
          ∧ ¬(p.task_status = some "FAILURE" ∨ p.status = some "failed")))
    ∧ (∀ timeout src fuel k e, e ≤ timeout → src k = Resp.ok p →
        (classify p = .succeed →
          runPoll timeout src (fuel + 1) k e = some (.succeeded, e, k + 1))
        ∧ (∀ q, classify p = .failNow q →
          runPoll timeout src (fuel + 1) k e = some (.failed q, e, k + 1))) := by
  refine ⟨?_, ?_, ?_, ?_⟩
  · by_cases hs : p.task_status = some "SUCCESS" ∨ p.status = some "completed" <;>
      by_cases hfl : p.task_status = some "FAILURE" ∨ p.status = some "failed" <;>
      simp [classify, hs, hfl]
  · intro q
    by_cases hs : p.task_status = some "SUCCESS" ∨ p.status = some "completed" <;>
      by_cases hfl : p.task_status = some "FAILURE" ∨ p.status = some "failed" <;>
      simp [classify, hs, hfl, eq_comm]
  · by_cases hs : p.task_status = some "SUCCESS" ∨ p.status = some "completed" <;>
      by_cases hfl : p.task_status = some "FAILURE" ∨ p.status = some "failed" <;>
      simp [classify, hs, hfl]
  · intro timeout src fuel k e he hsrc
    constructor
    · intro hcl
      simp only [runPoll, if_neg (show ¬ e > timeout by omega), hsrc, hcl]
    · intro q hcl
      simp only [runPoll, if_neg (show ¬ e > timeout by omega), hsrc, hcl]

/-- C3 witness: a payload with `task_status = "FAILURE"` makes the loop
return `failed` carrying that very payload after one request. -/
theorem c3_status_classification_witness :
    runPoll 100 (fun _ => Resp.ok ⟨some "FAILURE", none⟩) 3 0 0
      = some (.failed ⟨some "FAILURE", none⟩, 0, 1) := by
  have h := (c3_status_classification ⟨some "FAILURE", none⟩).2.2.2 100
    (fun _ => Resp.ok ⟨some "FAILURE", none⟩) 2 0 0 (by omega) rfl
  exact h.2 ⟨some "FAILURE", none⟩ (by decide)

/-- C4: after success the two artifact kinds are fetched independently —
the CSV outcome does not depend on the VTT outcome and vice versa — each
successful artifact is persisted to the deterministic path derived from the
job identifier and its kind, and the `downloaded_files` report lists
exactly the kinds that succeeded (possibly none, one, or both). -/
theorem c4_artifact_fetch (jobId : List Char) (vtt csv : Option (List Char)) :
    ((fetchResults jobId vtt csv).report
        = (if vtt.isSome then ["VTT"] else []) ++ (if csv.isSome then ["CSV"] else []))
    ∧ ((fetchResults jobId vtt csv).files
        = (match vtt with | some c => [(vttPathOf jobId, c)] | none => [])
          ++ (match csv with | some c => [(csvPathOf jobId, c)] | none => []))
    ∧ (∀ vtt2, ("CSV" ∈ (fetchResults jobId vtt csv).report
        ↔ "CSV" ∈ (fetchResults jobId vtt2 csv).report))
    ∧ (∀ csv2, ("VTT" ∈ (fetchResults jobId vtt csv).report
        ↔ "VTT" ∈ (fetchResults jobId vtt csv2).report)) := by
  refine ⟨?_, ?_, ?_, ?_⟩
  · cases vtt <;> cases csv <;> simp [fetchResults]
  · cases vtt <;> cases csv <;> simp [fetchResults]
  · intro vtt2
    cases vtt <;> cases vtt2 <;> cases csv <;> simp [fetchResults]
  · intro csv2
    cases vtt <;> cases csv <;> cases csv2 <;> simp [fetchResults]

end TranscribeKit

namespace TranscribeKit

theorem isEmpty_false_of_ne {α : Type} {l : List α} (h : l ≠ []) : l.isEmpty = false := by
  cases l with
  | nil => exact absurd rfl h
  | cons a t => rfl

theorem csv_error_absorb (rows : List (List (List Char × List Char))) :
    List.foldl csvStep none rows = none := by
  induction rows with
  | nil => rfl
  | cons r rest ih =>
    rw [List.foldl_cons]
    exact ih

theorem csv_missing_none (rows : List (List (List Char × List Char))) :
    ∀ m, (∃ r ∈ rows, lookupCol speakerKey r = none ∨ lookupCol textKey r = none) →
      List.foldl csvStep (some m) rows = none := by
  induction rows with
  | nil =>
    intro m h
    simp at h
  | cons r rest ih =>
    intro m h
    obtain ⟨r', hr', hmiss⟩ := h
    rw [List.mem_cons] at hr'
    rw [List.foldl_cons]
    cases hr' with
    | inl heq =>
      subst heq
      have hnone : csvStep (some m) r' = none := by
        cases hmiss with
        | inl h1 => simp [csvStep, h1]
        | inr h2 => cases hsp : lookupCol speakerKey r' <;> simp [csvStep, hsp, h2]
      rw [hnone]
      exact csv_error_absorb rest
    | inr hmem =>
      cases hst : csvStep (some m) r with
      | none => exact csv_error_absorb rest
      | some m2 => exact ih m2 ⟨r', hmem, hmiss⟩

theorem vtt_no_arrow (ls : List (List Char)) (h : ∀ l ∈ ls, hasArrow l = false) :
    List.foldl stepLine initV ls = initV := by
  induction ls with
  | nil => rfl
  | cons l rest ih =>
    rw [List.foldl_cons]
    have hstep : stepLine initV l = initV := by
      simp [stepLine, initV, h l (List.mem_cons_self l rest)]
    rw [hstep]
    exact ih (fun x hx => h x (List.mem_cons_of_mem l hx))

/-- C9 (amended): a tabular input containing a row without a `speaker` or
`text` column raises before the output file is opened, so no output is
written; the caption converter, by contrast, never aborts — on a document
with no cue marker at all it writes an empty (zero-block) output file. -/
theorem c9_malformed_input :
    (∀ rows, (∃ r ∈ rows, lookupCol speakerKey r = none ∨ lookupCol textKey r = none) →
      writeCsv rows = none)
    ∧ (∀ ls, (∀ l ∈ ls, hasArrow l = false) → writeVtt ls = some []) := by
  constructor
  · intro rows h
    rw [writeCsv, csvBlocks, csv_missing_none rows initM h]
    rfl
  · intro ls h
    rw [writeVtt, convertVtt, vtt_no_arrow ls h]
    rfl

/-- C9 witness: a single row holding only a `text` column makes the tabular
conversion produce no output file, and a one-line unparseable caption
document yields an empty output file. -/
theorem c9_malformed_input_witness :
    writeCsv [[(textKey, ['x'])]] = none
    ∧ writeVtt ["no cues here".toList] = some [] :=
  ⟨c9_malformed_input.1 [[(textKey, ['x'])]] ⟨[(textKey, ['x'])], by decide, by decide⟩,
    c9_malformed_input.2 ["no cues here".toList] (by decide)⟩

/-- C9 counterexample: the claim says a completely unparseable caption
document aborts the conversion with no output file written; in fact the
converter has no failure path — on such a document it still writes a file
(with empty content). -/
theorem c9_vtt_no_abort_counterexample :
    (∀ l ∈ ["garbage that is not a caption document".toList], hasArrow l = false)
    ∧ writeVtt ["garbage that is not a caption document".toList] ≠ none
    ∧ writeVtt ["garbage that is not a caption document".toList] = some [] := by
  refine ⟨?_, ?_, ?_⟩ <;> decide

theorem joinSp_cons (w : List Char) (r : List (List Char)) :
    joinSp (w :: r) = w ++ joinSp2 r := by
  cases r with
  | nil => simp [joinSp, joinSp2]
  | cons x t => simp [joinSp, joinSp2]

theorem joinSp2_of_ne (r : List (List Char)) (h : r ≠ []) :
    joinSp2 r = ' ' :: joinSp r := by
  rw [joinSp2, isEmpty_false_of_ne h]
  rfl

theorem pySplitAux_ne_nil (s : List Char) :
    ∀ cur, cur ≠ [] → pySplitAux s cur ≠ [] := by
  induction s with
  | nil =>
    intro cur h
    simp [pySplitAux, isEmpty_false_of_ne h]
  | cons c t ih =>
    intro cur h
    by_cases hc : isSpace c
    · simp [pySplitAux, hc, isEmpty_false_of_ne h]
    · simp only [pySplitAux, if_neg hc]
      exact ih (c :: cur) (by simp)

theorem pySplitAux_cons_space_nil (c : Char) (t : List Char) (hc : isSpace c = true) :
    pySplitAux (c :: t) [] = pySplitAux t [] := by
  simp [pySplitAux, hc]

theorem pySplitAux_cons_space (c : Char) (t cur : List Char) (hc : isSpace c = true)
    (h : cur ≠ []) : pySplitAux (c :: t) cur = cur.reverse :: pySplitAux t [] := by
  simp [pySplitAux, hc, isEmpty_false_of_ne h]

theorem pySplitAux_cons_word (c : Char) (t cur : List Char) (hc : isSpace c = false) :
    pySplitAux (c :: t) cur = pySplitAux t (c :: cur) := by
  simp [pySplitAux, hc]

theorem cGo_cons_space (m : Nat) (c : Char) (t : List Char) (hc : isSpace c = true) :
    cGo m (c :: t) = cGo (if m = 0 then 0 else 2) t := by
  simp [cGo, hc]

theorem cGo_cons_word (m : Nat) (c : Char) (t : List Char) (hc : isSpace c = false) :
    cGo m (c :: t) = (if m = 2 then [' '] else []) ++ c :: cGo 1 t := by
  simp [cGo, hc]

theorem split_cGo (s : List Char) :
    (joinSp (pySplitAux s []) = cGo 0 s)
    ∧ (∀ cur, cur ≠ [] → joinSp (pySplitAux s cur) = cur.reverse ++ cGo 1 s)
    ∧ (joinSp2 (pySplitAux s []) = cGo 2 s) := by
  induction s with
  | nil =>
    refine ⟨rfl, ?_, rfl⟩
    intro cur h
    simp [pySplitAux, isEmpty_false_of_ne h, joinSp, cGo]
  | cons c t ih =>
    obtain ⟨ihA, ihB, ihC⟩ := ih
    cases hc : isSpace c with
    | true =>
      refine ⟨?_, ?_, ?_⟩
      · rw [pySplitAux_cons_space_nil c t hc, cGo_cons_space 0 c t hc, if_pos rfl]
        exact ihA
      · intro cur h
        rw [pySplitAux_cons_space c t cur hc h, cGo_cons_space 1 c t hc,
          if_neg (by omega), joinSp_cons, ihC]
      · rw [pySplitAux_cons_space_nil c t hc, cGo_cons_space 2 c t hc, if_neg (by omega)]
        exact ihC
    | false =>
      refine ⟨?_, ?_, ?_⟩
      · rw [pySplitAux_cons_word c t [] hc, cGo_cons_word 0 c t hc, if_neg (by omega),
          ihB [c] (by simp)]
        rfl
      · intro cur h
        rw [pySplitAux_cons_word c t cur hc, cGo_cons_word 1 c t hc, if_neg (by omega),
          ihB (c :: cur) (by simp)]
        simp
      · rw [pySplitAux_cons_word c t [] hc,
          joinSp2_of_ne _ (pySplitAux_ne_nil t [c] (by simp)), ihB [c] (by simp),
          cGo_cons_word 2 c t hc, if_pos rfl]
        rfl

theorem joinSp_pySplit_eq_cGo (s : List Char) : joinSp (pySplit s) = cGo 0 s :=
  (split_cGo s).1

/-- C7 counterexample: on the four-character input `" x"` the code first
strips the quotes, exposing a leading space, and then removes that space as
well ( yielding `x`), while the claim's literal pipeline — which only
collapses internal whitespace runs — would keep it (yielding ` x`). -/
theorem c7_clean_text_counterexample :
    clean_text ['"', ' ', 'x', '"'] ≠ spec_cleanLiteral ['"', ' ', 'x', '"']
    ∧ clean_text ['"', ' ', 'x', '"'] = ['x']
    ∧ spec_cleanLiteral ['"', ' ', 'x', '"'] = [' ', 'x'] := by
  refine ⟨?_, ?_, ?_⟩ <;> decide

/-- C7 (amended): the text-cleaning function trims the input, strips one
layer of surrounding double quotes when both a leading and a trailing quote
are present, and then normalizes whitespace — collapsing every whitespace
run to a single space and also dropping any leading or trailing whitespace
exposed by the quote stripping. -/
theorem c7_clean_text_amended (s : List Char) :
    clean_text s = spec_cleanAmended s := by
  simp only [clean_text, spec_cleanAmended, spec_stripQuotes, pySplit]
  exact (split_cGo _).1

end TranscribeKit

namespace TranscribeKit

theorem dropWhile_length_le (p : Char → Bool) (l : List Char) :
    (l.dropWhile p).length ≤ l.length := by
  induction l with
  | nil => simp
  | cons c t ih =>
    rw [List.dropWhile_cons]
    split
    · exact Nat.le_trans ih (by simp)
    · exact Nat.le_refl _

theorem dropWhile_eq_of_length (p : Char → Bool) (l : List Char)
    (h : (l.dropWhile p).length = l.length) : l.dropWhile p = l := by
  have hsplit := List.takeWhile_append_dropWhile p l
  have hlen : (l.takeWhile p).length + (l.dropWhile p).length = l.length := by
    rw [← List.length_append, hsplit]
  have ht : l.takeWhile p = [] := List.length_eq_zero.mp (by omega)
  conv_rhs => rw [← hsplit]
  rw [ht, List.nil_append]

theorem strip_fix_dropWhile {s : List Char} (h : pyStrip s = s) :
    s.dropWhile isSpace = s := by
  apply dropWhile_eq_of_length
  have h1 := dropWhile_length_le isSpace s
  have h2 : (pyStrip s).length ≤ (s.dropWhile isSpace).length := by
    rw [pyStrip, List.length_reverse]
    calc ((s.dropWhile isSpace).reverse.dropWhile isSpace).length
        ≤ (s.dropWhile isSpace).reverse.length := dropWhile_length_le _ _
      _ = (s.dropWhile isSpace).length := List.length_reverse _
  rw [h] at h2
  omega

theorem strip_fix_rev {s : List Char} (h : pyStrip s = s) :
    s.reverse.dropWhile isSpace = s.reverse := by
  have hdw := strip_fix_dropWhile h
  have h2 : (s.reverse.dropWhile isSpace).reverse = s := by
    calc (s.reverse.dropWhile isSpace).reverse
        = ((s.dropWhile isSpace).reverse.dropWhile isSpace).reverse := by rw [hdw]
      _ = pyStrip s := rfl
      _ = s := h
  have h3 := congrArg List.reverse h2
  rw [List.reverse_reverse] at h3
  exact h3

theorem strip_of_fixes {s : List Char} (h1 : s.dropWhile isSpace = s)
    (h2 : s.reverse.dropWhile isSpace = s.reverse) : pyStrip s = s := by
  rw [pyStrip, h1, h2, List.reverse_reverse]

theorem head_not_space {s : List Char} (h : s.dropWhile isSpace = s) :
    ∀ c r, s = c :: r → isSpace c = false := by
  intro c r hs
  subst hs
  cases hq : isSpace c with
  | false => rfl
  | true =>
    exfalso
    rw [List.dropWhile_cons, hq, if_pos rfl] at h
    have hle := dropWhile_length_le isSpace r
    have hlen := congrArg List.length h
    rw [List.length_cons] at hlen
    omega

theorem dropWhile_cons_nonspace (c : Char) (A : List Char) (hc : isSpace c = false) :
    (c :: A).dropWhile isSpace = c :: A := by
  simp [List.dropWhile_cons, hc]

theorem takeWhile_no_gt (S R : List Char) (h : '>' ∉ S) :
    (S ++ '>' :: R).takeWhile (fun c => c != '>') = S := by
  induction S with
  | nil => simp [List.takeWhile_cons]
  | cons a S' ih =>
    have ha : a ≠ '>' := fun hh => h (List.mem_cons.mpr (Or.inl hh.symm))
    rw [List.cons_append, List.takeWhile_cons, if_pos (bne_iff_ne.mpr ha)]
    rw [ih (fun hm => h (List.mem_cons.mpr (Or.inr hm)))]

theorem vttMatch_tag (S R : List Char) (c : Char) (S' : List Char)
    (hSc : S = c :: S') (hc : isSpace c = false) (hgt : '>' ∉ S) :
    vttMatch ('<' :: 'v' :: ' ' :: (S ++ '>' :: R)) = some (S, R) := by
  have hsp : isSpace ' ' = true := by decide
  have htw : ((' ' :: (S ++ '>' :: R)).takeWhile isSpace).length = 1 := by
    subst hSc
    rw [List.takeWhile_cons, if_pos hsp, List.cons_append, List.takeWhile_cons,
      if_neg (by rw [hc]; exact fun hh => Bool.noConfusion hh)]
    rfl
  rw [vttMatch, htw, tryK]
  have hdrop : (' ' :: (S ++ '>' :: R)).drop 1 = S ++ '>' :: R := rfl
  rw [hdrop, takeWhile_no_gt S R hgt, List.drop_left]
  have hne : S.isEmpty = false := isEmpty_false_of_ne (by rw [hSc]; exact List.cons_ne_nil c S')
  rw [hne]
  rfl

theorem pyStrip_append_space {X : List Char} (h : pyStrip X = X) :
    pyStrip (X ++ [' ']) = X := by
  cases hx : X with
  | nil => decide
  | cons c R =>
    rw [← hx]
    have hc : isSpace c = false := head_not_space (strip_fix_dropWhile h) c R hx
    have hd1 : (X ++ [' ']).dropWhile isSpace = X ++ [' '] := by
      rw [hx, List.cons_append]
      exact dropWhile_cons_nonspace c (R ++ [' ']) hc
    have hsp : isSpace ' ' = true := by decide
    rw [pyStrip, hd1, List.reverse_append,
      show ([' '] : List Char).reverse = [' '] from rfl, List.singleton_append,
      List.dropWhile_cons, if_pos hsp, strip_fix_rev h, List.reverse_reverse]

end TranscribeKit

namespace TranscribeKit

theorem tagA_strip_fix (S : List Char) :
    pyStrip ('<' :: 'v' :: ' ' :: (S ++ ['>'])) = '<' :: 'v' :: ' ' :: (S ++ ['>']) := by
  apply strip_of_fixes
  · exact dropWhile_cons_nonspace '<' _ (by decide)
  · have hform : '<' :: 'v' :: ' ' :: (S ++ ['>'])
        = ('<' :: 'v' :: ' ' :: S) ++ ['>'] := by simp
    have hrev : ('<' :: 'v' :: ' ' :: (S ++ ['>'])).reverse
        = '>' :: ('<' :: 'v' :: ' ' :: S).reverse := by
      rw [hform, List.reverse_append]
      rfl
    rw [hrev]
    exact dropWhile_cons_nonspace '>' _ (by decide)

theorem tagB_strip_fix (S T : List Char) (d : Char) (B : List Char)
    (hTrev : T.reverse = d :: B) (hd : isSpace d = false) :
    pyStrip ('<' :: 'v' :: ' ' :: (S ++ '>' :: ' ' :: T))
      = '<' :: 'v' :: ' ' :: (S ++ '>' :: ' ' :: T) := by
  apply strip_of_fixes
  · exact dropWhile_cons_nonspace '<' _ (by decide)
  · have hform : '<' :: 'v' :: ' ' :: (S ++ '>' :: ' ' :: T)
        = ('<' :: 'v' :: ' ' :: (S ++ ['>', ' '])) ++ T := by simp
    have hrev : ('<' :: 'v' :: ' ' :: (S ++ '>' :: ' ' :: T)).reverse
        = d :: (B ++ ('<' :: 'v' :: ' ' :: (S ++ ['>', ' '])).reverse) := by
      rw [hform, List.reverse_append, hTrev]
      rfl
    rw [hrev]
    exact dropWhile_cons_nonspace d _ hd

theorem vtt_pair_step (S T : List Char) (m : MState)
    (hS1 : S ≠ []) (hS2 : pyStrip S = S) (hS3 : '>' ∉ S) (hT5 : pyStrip T = T) :
    List.foldl stepLine ⟨m, none⟩ (encodePairVtt (S, T))
      = ⟨(if T = [] then m else pushFrag m ⟨S, T⟩), none⟩ := by
  obtain ⟨c, S', hSc⟩ : ∃ c S', S = c :: S' := by
    cases S with
    | nil => exact absurd rfl hS1
    | cons c S' => exact ⟨c, S', rfl⟩
  have hc : isSpace c = false := head_not_space (strip_fix_dropWhile hS2) c S' hSc
  have htag : "<v ".toList ++ S ++ "> ".toList ++ T
      = '<' :: 'v' :: ' ' :: (S ++ '>' :: ' ' :: T) := by
    rw [show "<v ".toList = ['<', 'v', ' '] from rfl, show "> ".toList = ['>', ' '] from rfl]
    simp
  have henc : encodePairVtt (S, T) = [tsLine, '<' :: 'v' :: ' ' :: (S ++ '>' :: ' ' :: T), []] := by
    show [tsLine, "<v ".toList ++ S ++ "> ".toList ++ T, []] = _
    rw [htag]
  have h1 : stepLine ⟨m, none⟩ tsLine = ⟨m, some []⟩ := by
    simp [stepLine, show hasArrow tsLine = true from by decide]
  by_cases hT : T = []
  · subst hT
    have hformA : '<' :: 'v' :: ' ' :: (S ++ '>' :: ' ' :: ([] : List Char))
        = ('<' :: 'v' :: ' ' :: (S ++ ['>'])) ++ [' '] := by simp
    have hfixA : pyStrip ('<' :: 'v' :: ' ' :: (S ++ ['>']))
        = '<' :: 'v' :: ' ' :: (S ++ ['>']) := tagA_strip_fix S
    have hstr : pyStrip ('<' :: 'v' :: ' ' :: (S ++ '>' :: ' ' :: ([] : List Char)))
        = '<' :: 'v' :: ' ' :: (S ++ ['>']) := by
      rw [hformA]
      exact pyStrip_append_space hfixA
    have h2 : stepLine ⟨m, some []⟩ ('<' :: 'v' :: ' ' :: (S ++ '>' :: ' ' :: ([] : List Char)))
        = ⟨m, some (([] ++ ('<' :: 'v' :: ' ' :: (S ++ ['>']))) ++ [' '])⟩ := by
      simp only [stepLine, hstr]
      rw [if_neg (by simp)]
    have hcueA : cueFragment ('<' :: 'v' :: ' ' :: (S ++ ['>'])) = none := by
      have hmA : vttMatch ('<' :: 'v' :: ' ' :: (S ++ '>' :: ([] : List Char)))
          = some (S, []) := vttMatch_tag S [] c S' hSc hc hS3
      rw [cueFragment, hmA]
      rfl
    have h3 : stepLine ⟨m, some (([] ++ ('<' :: 'v' :: ' ' :: (S ++ ['>']))) ++ [' '])⟩ []
        = ⟨m, none⟩ := by
      simp only [stepLine]
      rw [if_pos (show pyStrip ([] : List Char) = [] from rfl)]
      simp only [closeCue]
      rw [List.nil_append, pyStrip_append_space hfixA, hcueA]
    rw [henc, List.foldl_cons, h1, List.foldl_cons, h2, List.foldl_cons, h3, List.foldl_nil,
      if_pos rfl]
  · obtain ⟨d, B, hTrev⟩ : ∃ d B, T.reverse = d :: B := by
      cases hTr : T.reverse with
      | nil =>
        exfalso
        have h := congrArg List.reverse hTr
        rw [List.reverse_reverse] at h
        exact hT h
      | cons d B => exact ⟨d, B, rfl⟩
    have hd : isSpace d = false := head_not_space (strip_fix_rev hT5) d B hTrev
    have hfixB : pyStrip ('<' :: 'v' :: ' ' :: (S ++ '>' :: ' ' :: T))
        = '<' :: 'v' :: ' ' :: (S ++ '>' :: ' ' :: T) := tagB_strip_fix S T d B hTrev hd
    have h2 : stepLine ⟨m, some []⟩ ('<' :: 'v' :: ' ' :: (S ++ '>' :: ' ' :: T))
        = ⟨m, some (([] ++ ('<' :: 'v' :: ' ' :: (S ++ '>' :: ' ' :: T))) ++ [' '])⟩ := by
      simp only [stepLine, hfixB]
      rw [if_neg (by simp)]
    have hmB : vttMatch ('<' :: 'v' :: ' ' :: (S ++ '>' :: ' ' :: T)) = some (S, ' ' :: T) :=
      vttMatch_tag S (' ' :: T) c S' hSc hc hS3
    have hdw : (' ' :: T).dropWhile isSpace = T := by
      rw [List.dropWhile_cons, if_pos (by decide)]
      exact strip_fix_dropWhile hT5
    have hcueB : cueFragment ('<' :: 'v' :: ' ' :: (S ++ '>' :: ' ' :: T)) = some ⟨S, T⟩ := by
      rw [cueFragment, hmB]
      simp only [hdw, hS2, hT5]
      rw [if_neg hT, if_neg hS1]
    have h3 : stepLine ⟨m, some (([] ++ ('<' :: 'v' :: ' ' :: (S ++ '>' :: ' ' :: T))) ++ [' '])⟩ []
        = ⟨pushFrag m ⟨S, T⟩, none⟩ := by
      simp only [stepLine]
      rw [if_pos (show pyStrip ([] : List Char) = [] from rfl)]
      simp only [closeCue]
      rw [List.nil_append, pyStrip_append_space hfixB, hcueB]
    rw [henc, List.foldl_cons, h1, List.foldl_cons, h2, List.foldl_cons, h3, List.foldl_nil,
      if_neg hT]

end TranscribeKit

namespace TranscribeKit

theorem vtt_pairs_fold (pairs : List (List Char × List Char)) :
    ∀ m, (∀ p ∈ pairs, cleanPair p) →
      List.foldl stepLine ⟨m, none⟩ (pairs.flatMap encodePairVtt)
        = ⟨List.foldl pushFrag m (pairsFrags pairs), none⟩ := by
  induction pairs with
  | nil => intro m _; rfl
  | cons p rest ih =>
    obtain ⟨S, T⟩ := p
    intro m h
    obtain ⟨hp1, hp2, hp3, _, hp5⟩ := h (S, T) (List.mem_cons_self _ rest)
    rw [List.flatMap_cons, List.foldl_append,
      vtt_pair_step S T m hp1 hp2 hp3 hp5]
    by_cases hT : T = []
    · rw [if_pos hT]
      rw [ih m (fun q hq => h q (List.mem_cons_of_mem _ hq))]
      simp [pairsFrags, List.filterMap_cons, hT]
    · rw [if_neg hT]
      rw [ih (pushFrag m ⟨S, T⟩) (fun q hq => h q (List.mem_cons_of_mem _ hq))]
      simp [pairsFrags, List.filterMap_cons, hT]

theorem csvStep_encode (S T : List Char) (m : MState) (hS1 : S ≠ [])
    (h2 : pyStrip S = S) (h4 : clean_text T = T) :
    csvStep (some m) (encodeRow (S, T))
      = some (if T = [] then m else pushFrag m ⟨S, T⟩) := by
  have hlook1 : lookupCol speakerKey (encodeRow (S, T)) = some S := by
    simp only [encodeRow]
    rw [lookupCol, if_pos rfl]
  have hlook2 : lookupCol textKey (encodeRow (S, T)) = some T := by
    simp only [encodeRow]
    rw [lookupCol, if_neg (by decide), lookupCol, if_pos rfl]
  simp only [csvStep, hlook1, hlook2, h2, h4]
  by_cases hT : T = []
  · rw [if_pos (Or.inl hT), if_pos hT]
  · rw [if_neg (fun hor => hor.elim hT hS1), if_neg hT]

theorem csv_pairs_fold (pairs : List (List Char × List Char)) :
    ∀ m, (∀ p ∈ pairs, cleanPair p) →
      List.foldl csvStep (some m) (pairs.map encodeRow)
        = some (List.foldl pushFrag m (pairsFrags pairs)) := by
  induction pairs with
  | nil => intro m _; rfl
  | cons p rest ih =>
    obtain ⟨S, T⟩ := p
    intro m h
    obtain ⟨hp1, hp2, _, hp4, _⟩ := h (S, T) (List.mem_cons_self _ rest)
    rw [List.map_cons, List.foldl_cons, csvStep_encode S T m hp1 hp2 hp4]
    by_cases hT : T = []
    · rw [if_pos hT]
      rw [ih m (fun q hq => h q (List.mem_cons_of_mem _ hq))]
      simp [pairsFrags, List.filterMap_cons, hT]
    · rw [if_neg hT]
      rw [ih (pushFrag m ⟨S, T⟩) (fun q hq => h q (List.mem_cons_of_mem _ hq))]
      simp [pairsFrags, List.filterMap_cons, hT]

/-- C6 (amended): for every list of (speaker, text) pairs that are already
in canonical form — nonempty trimmed speaker without `>`, text left
unchanged by the tabular cleaning — expressing the list once as tabular
rows and once as caption cues and running each through its parser and the
merge produces identical dialogue block sequences.  (Without the
canonical-form condition the claim is false: the tabular path cleans the
text, the caption path only trims it.) -/
theorem c6_convergence (pairs : List (List Char × List Char))
    (h : ∀ p ∈ pairs, cleanPair p) :
    csvBlocks (pairs.map encodeRow) = some (convertVtt (encodeVtt pairs)) := by
  have hcsv : csvBlocks (pairs.map encodeRow)
      = some (finalizeM (List.foldl pushFrag initM (pairsFrags pairs))) := by
    rw [csvBlocks, csv_pairs_fold pairs initM h]
    rfl
  have hskip1 : stepLine initV "WEBVTT".toList = initV := by
    simp only [stepLine, initV]
    rw [if_neg (show ¬ hasArrow "WEBVTT".toList = true from by decide)]
  have hskip2 : stepLine initV ([] : List Char) = initV := by
    simp only [stepLine, initV]
    rw [if_neg (show ¬ hasArrow ([] : List Char) = true from by decide)]
  have hvtt : convertVtt (encodeVtt pairs)
      = finalizeM (List.foldl pushFrag initM (pairsFrags pairs)) := by
    rw [convertVtt, encodeVtt, List.foldl_cons, hskip1, List.foldl_cons, hskip2,
      show (initV : VState) = ⟨initM, none⟩ from rfl,
      vtt_pairs_fold pairs initM h]
    rfl
  rw [hcsv, hvtt]

/-- C6 witness: a clean three-pair conversation (A twice, then B) yields
the same two blocks through the tabular path and the caption path. -/
theorem c6_convergence_witness :
    csvBlocks ([(['A'], ['x', ' ', 'x']), (['A'], ['y']), (['B'], ['z'])].map encodeRow)
      = some (convertVtt (encodeVtt
          [(['A'], ['x', ' ', 'x']), (['A'], ['y']), (['B'], ['z'])])) :=
  c6_convergence [(['A'], ['x', ' ', 'x']), (['A'], ['y']), (['B'], ['z'])] (by
    intro p hp
    fin_cases hp <;>
      exact ⟨by decide, by decide, by decide, by decide, by decide⟩)

/-- C6 counterexample: the claim as stated quantifies over every pair list;
for the single pair (A, `a  b`) — text with a double space — the tabular
path collapses the whitespace (`a b`) while the caption path keeps it
(`a  b`), so the two pipelines disagree. -/
theorem c6_convergence_counterexample :
    csvBlocks ([(['A'], ['a', ' ', ' ', 'b'])].map encodeRow)
      ≠ some (convertVtt (encodeVtt [(['A'], ['a', ' ', ' ', 'b'])])) := by
  decide

end TranscribeKit
